import Mathlib

/-!
Verification of the accessibility tree engine of SRFirst
(src/Sources/SRFirstMain.cpp) against its natural-language specification.

The C++ engine is shallowly embedded: the structure-of-arrays node store
becomes a Lean structure of lists, 64-bit unsigned ids become Nat (reduced
mod 2^64 where the code computes them), signed C++ ints become Int, and
every operation that can hit a fatal VERIFY (which calls std::exit) is
embedded as an Option-valued function where `none` models the abort.
Out-parameters that a method may or may not write are modeled as returned
`Option` values, `none` meaning the slot was left untouched.
-/

namespace SRFirst

/-- The number 2^64; element ids are 64-bit unsigned integers. -/
def idMod : Nat := 18446744073709551616

/-- UiTree::Type from the source: the control type of a node. -/
inductive UiType where
  | kNone
  | kText
  | kDocument
  | kButton
  | kPane
deriving DecidableEq, Repr

/-- A RECT with the four LONG fields used by the hit tester. -/
structure Rect where
  left : Int
  top : Int
  right : Int
  bottom : Int
deriving DecidableEq, Repr

/-- The all-zero RECT pushed for each new node (`g_ui.node_rect.push_back({})`). -/
def rect0 : Rect := ⟨0, 0, 0, 0⟩

/-- The node store `UiTree` from the source: one column per property, kept in
parallel lists indexed by build order.  `actions` keeps the ids registered in
the action table (the callback payloads are irrelevant to the claims), and
`focused_id` / `depth_for_adding_element` are the two scalar state fields. -/
structure UiTree where
  node_ids : List Nat
  node_names : List (List Nat)
  node_type : List UiType
  node_parent : List Nat
  node_depth : List Nat
  node_text_len : List Nat
  node_rect : List Rect
  actions : List Nat
  focused_id : Nat
  depth_for_adding_element : Nat
deriving DecidableEq, Repr

/-- The empty tree: the initial value of the global `g_ui`. -/
def uiEmpty : UiTree :=
  { node_ids := [], node_names := [], node_type := [], node_parent := [],
    node_depth := [], node_text_len := [], node_rect := [], actions := [],
    focused_id := 0, depth_for_adding_element := 0 }

/-- Embeds `valid_id`: an id is valid when it is neither the root sentinel 0
nor the invalid sentinel `UiTree::Id(-1)` = 2^64 - 1. -/
def valid_id (id : Nat) : Bool :=
  decide (0 < id) && decide (id < idMod - 1)

/-- Embeds `exists_id`: valid and present in the node store. -/
def exists_id (t : UiTree) (id : Nat) : Bool :=
  valid_id id && t.node_ids.contains id

/-- Embeds `ui_get_index`: VERIFY(valid_id), then a linear scan for the id,
then VERIFY the id was found.  The two-entry finger cache of the source is a
performance aid and does not change the returned index, so it is omitted.
`none` models the fatal VERIFY. -/
def ui_get_index (t : UiTree) (id : Nat) : Option Nat :=
  if valid_id id then t.node_ids.findIdx? (fun x => x = id) else none

/-- A name is a wchar_t string; we embed it as its list of UTF-16 code units. -/
def codeUnits (s : String) : List Nat := s.data.map Char.toNat

/-- The little-endian byte serialization of a UTF-16 string, as hashed by
`hash(num_bytes, name)` in the source (wchar_t is 16-bit on Windows). -/
def nameBytes (units : List Nat) : List Nat :=
  units.flatMap (fun u => [u % 256, u / 256 % 256])

/-- Modelled from the spec: the content-hash primitive `wyhash` comes from the
third-party header wyhash.h, which is not under src/.  Section 4.1 of the spec
describes it as a deterministic, well-distributed 64-bit non-cryptographic
hash of the byte representation of the name, seeded with a fixed constant.  We
model it as a fixed deterministic 64-bit fold over the bytes. -/
def wyhash_model (bytes : List Nat) : Nat :=
  bytes.foldl (fun h b => (h * 1099511628211 + b) % idMod) 14695981039346656037

/-- Modelled from the spec: the mixing primitive `wyhash64` also comes from
the missing wyhash.h; the spec describes it as a second avalanche/mixing step
combining the name hash with the parent id.  We model it as a fixed
deterministic 64-bit mixing function of its two arguments. -/
def wyhash64_model (a b : Nat) : Nat :=
  ((a ^^^ b) * 6364136223846793005 + 1442695040888963407) % idMod

/-- The identity generator (spec name `make_id`): in the source this is the
two-line computation inside `ui_named_element`:
`id = hash(num_bytes, name); id = wyhash64(id, parent_id);`. -/
def make_id (name : List Nat) (parent_id : Nat) : Nat :=
  wyhash64_model (wyhash_model (nameBytes name)) parent_id

/-- Embeds `std::find(rbegin, rend, x)` on the depth column: the distance from
`rbegin` to the first match scanning backward, `none` when absent. -/
def revFind (l : List Nat) (x : Nat) : Option Nat :=
  l.reverse.findIdx? (fun d => d = x)

/-- The parent-resolution step of `ui_named_element`: at depth 0 the parent is
the synthetic root id 0; otherwise scan backward through the depth column for
the most recent entry at depth-1 and take that node's id, aborting
(VERIFY(parent_pos != rend)) when none exists. -/
def resolve_parent (t : UiTree) : Option Nat :=
  let index := t.node_ids.length
  let depth := t.depth_for_adding_element
  if depth = 0 then some 0
  else
    match revFind t.node_depth (depth - 1) with
    | none => none
    | some relative_index =>
        some (t.node_ids.getD (index - 1 - relative_index) 0)

/-- The text-length accumulation loop of `ui_named_element`: starting from the
new node's parent id, walk parent links upward until reaching id 0, adding
`len` into each ancestor's `node_text_len` entry.  The fuel argument bounds
the walk; `none` models the fatal VERIFY inside `ui_get_index` (and a
hypothetical non-terminating parent cycle, which a well-formed store never
has). -/
def bump_ancestors : Nat → UiTree → List Nat → Nat → Nat → Option (List Nat)
  | 0, _, _, _, _ => none
  | fuel + 1, t, tl, pid, len =>
    if pid = 0 then some tl
    else
      match ui_get_index t pid with
      | none => none
      | some pi =>
          bump_ancestors fuel t (tl.set pi (tl.getD pi 0 + len))
            (t.node_parent.getD pi 0) len

/-- Embeds `ui_named_element`: resolve the parent, generate the id, VERIFY it
is valid and collides with no registered id, push one entry onto every column,
then set the new node's text length to its name length and add that length
into every ancestor.  `none` models any fatal VERIFY. -/
def ui_named_element (t : UiTree) (name : List Nat) (ty : UiType) :
    Option (Nat × UiTree) :=
  let index := t.node_ids.length
  let depth := t.depth_for_adding_element
  match resolve_parent t with
  | none => none
  | some parent_id =>
    let id := make_id name parent_id
    if valid_id id = false then none
    else if t.node_ids.contains id then none
    else
      let t1 : UiTree :=
        { t with
          node_ids := t.node_ids ++ [id],
          node_names := t.node_names ++ [name],
          node_type := t.node_type ++ [ty],
          node_depth := t.node_depth ++ [depth],
          node_parent := t.node_parent ++ [parent_id],
          node_rect := t.node_rect ++ [rect0],
          node_text_len := t.node_text_len ++ [0] }
      let node_len := (t1.node_names.getD index []).length
      let tl1 := t1.node_text_len.set index node_len
      match bump_ancestors (index + 1) t1 tl1
              (t1.node_parent.getD index 0) node_len with
      | none => none
      | some tl2 => some (id, { t1 with node_text_len := tl2 })

/-- Embeds `ui_document`. -/
def ui_document (t : UiTree) (name : List Nat) : Option (Nat × UiTree) :=
  ui_named_element t name UiType.kDocument

/-- Embeds `ui_text_paragraph`. -/
def ui_text_paragraph (t : UiTree) (name : List Nat) : Option (Nat × UiTree) :=
  ui_named_element t name UiType.kText

/-- Embeds `ui_pane`. -/
def ui_pane (t : UiTree) (name : List Nat) : Option (Nat × UiTree) :=
  ui_named_element t name UiType.kPane

/-- Embeds `ui_button`: a named element plus an action-table entry; the source
VERIFYs that `insert_or_assign` actually inserted (`.second`), so a
pre-existing entry for the id is a fatal error. -/
def ui_button (t : UiTree) (name : List Nat) : Option (Nat × UiTree) := do
  let r ← ui_named_element t name UiType.kButton
  if r.2.actions.contains r.1 then none
  else some (r.1, { r.2 with actions := r.2.actions ++ [r.1] })

/-- Embeds `g_ui.depth_for_adding_element++`. -/
def incDepth (t : UiTree) : UiTree :=
  { t with depth_for_adding_element := t.depth_for_adding_element + 1 }

/-- Embeds `g_ui.depth_for_adding_element--`. -/
def decDepth (t : UiTree) : UiTree :=
  { t with depth_for_adding_element := t.depth_for_adding_element - 1 }

/-- The element provider cache lookup / creation (`create_element_provider`):
VERIFY(exists_id), then hand out a provider carrying exactly the requested id.
A provider is represented by the id it carries. -/
def create_element_provider (t : UiTree) (element_id : Nat) : Option Nat :=
  if exists_id t element_id then some element_id else none

/-- Embeds `create_simple_element_provider`: the source ignores its
`element_id` parameter and builds the provider from `g_ui.focused_id`. -/
def create_simple_element_provider (t : UiTree) (element_id : Nat) :
    Option Nat :=
  create_element_provider t t.focused_id

/-- Embeds `ui_set_focus_to`: no-op when the id is already focused; otherwise
assign and, when clients are listening (the `listening` flag stands for
`UiaClientsAreListening() && g_root_provider`), raise a focus-changed
notification built from a simple element provider.  The returned Bool records
whether a notification was raised. -/
def ui_set_focus_to (listening : Bool) (t : UiTree) (id : Nat) :
    Option (UiTree × Bool) :=
  if id = t.focused_id then some (t, false)
  else
    let t' := { t with focused_id := id }
    if listening then
      match create_simple_element_provider t' t'.focused_id with
      | none => none
      | some _ => some (t', true)
    else some (t', false)

/-- Embeds `ui_focus_next`: look up the focused element's index (fatal when
nothing valid is focused), clamp at the last element, else move forward. -/
def ui_focus_next (listening : Bool) (t : UiTree) : Option (UiTree × Bool) := do
  let index ← ui_get_index t t.focused_id
  if index ≥ t.node_ids.length - 1 then some (t, false)
  else ui_set_focus_to listening t (t.node_ids.getD (index + 1) 0)

/-- Embeds `ui_focus_prev`: symmetric to `ui_focus_next`, clamped at index 0. -/
def ui_focus_prev (listening : Bool) (t : UiTree) : Option (UiTree × Bool) := do
  let index ← ui_get_index t t.focused_id
  if index ≤ 0 then some (t, false)
  else ui_set_focus_to listening t (t.node_ids.getD (index - 1) 0)

/-- Embeds the `ui_describe` pass: Pane "Main" containing Document "Main" with
three Text paragraphs, plus two sibling Buttons under the Pane; rect layout is
compiled out (`kEnableUiRects == false`), and afterwards focus is initialized
to the first paragraph when nothing was focused. -/
def ui_describe (listening : Bool) : Option (UiTree × Bool) := do
  let p ← ui_pane uiEmpty (codeUnits ("Main"))
  let t2 := incDepth p.2
  let d ← ui_document t2 (codeUnits ("Main"))
  let t4 := incDepth d.2
  let q1 ← ui_text_paragraph t4 (codeUnits ("This is the first paragraph."))
  let fid := q1.1
  let q2 ← ui_text_paragraph q1.2 (codeUnits ("Hello, Dreamer of dreams."))
  let q3 ← ui_text_paragraph q2.2 (codeUnits ("Yet another paragraph"))
  let t8 := decDepth q3.2
  let b1 ← ui_button t8 (codeUnits ("Minimize Application"))
  let b2 ← ui_button b1.2 (codeUnits ("Close Application"))
  let t11 := decDepth b2.2
  if t11.focused_id = 0 ∧ t11.node_ids ≠ [] then
    ui_set_focus_to listening t11 fid
  else some (t11, false)

/-- HRESULT values returned by the embedded operations. -/
inductive HR where
  | S_OK
  | E_NOTIMPL
  | E_UNEXPECTED
deriving DecidableEq, Repr

/-- A TextPoint: an element id and a signed character offset into that
element's own name. -/
structure TextPoint where
  id : Nat
  offset : Int
deriving DecidableEq, Repr

/-- A text range: the pair of endpoints held by AnyElementTextRangeProvider.
`stop` embeds the C++ member `end` (a reserved word in Lean). -/
structure TRange where
  start : TextPoint
  stop : TextPoint
deriving DecidableEq, Repr

/-- The value conversion applied when a C++ signed int is used where a size_t
is expected (two's-complement reinterpretation). -/
def toSizeT (x : Int) : Nat := (x % (idMod : Int)).toNat

/-- The scan step of `std::wstring::find(needle, pos)`: try each position in
turn, succeeding where the whole needle is a prefix of the rest. -/
def wfind_go : List Nat → List Nat → Nat → Option Nat
  | rem, needle, pos =>
    if needle.isPrefixOf rem then some pos
    else
      match rem with
      | [] => none
      | _ :: rest => wfind_go rest needle (pos + 1)

/-- Embeds `std::wstring::find(needle, pos)` on a name: the smallest position
at or after `pos` where the needle occurs in full, `none` for npos. -/
def wfind (hay needle : List Nat) (pos : Nat) : Option Nat :=
  if pos ≤ hay.length then wfind_go (hay.drop pos) needle pos else none

/-- Embeds `AnyElementTextProvider::get_DocumentRange`: for a Document node,
a range from offset 0 to the node's aggregate `text_len` on the same id; for
any other node the returned range slot stays null. -/
def get_DocumentRange (t : UiTree) (id : Nat) : Option (HR × Option TRange) := do
  let i ← ui_get_index t id
  if t.node_type.getD i UiType.kNone = UiType.kDocument then
    some (HR.S_OK, some ⟨⟨id, 0⟩, ⟨id, (t.node_text_len.getD i 0 : Int)⟩⟩)
  else some (HR.S_OK, none)

/-- The scan loop of `AnyElementTextRangeProvider::FindText`: visit nodes in
build order starting from the start point, search each node's name from the
current offset, latch `reached_end` at the node carrying the range's end id,
and stop on the first accepted match or at the end of the store.  The fuel
bounds the forward walk over node indices. -/
def findText_loop : Nat → UiTree → List Nat → Nat → Int → Nat → Int →
    Option (Option TRange)
  | 0, _, _, _, _, _, _ => none
  | fuel + 1, t, needle, endId, endOff, id, offset => do
    let i ← ui_get_index t id
    let pos := wfind (t.node_names.getD i []) needle (toSizeT offset)
    let reachedEnd :=
      if id = endId then
        match pos with
        | none => true
        | some p => decide (p + needle.length ≥ toSizeT endOff)
      else false
    match pos, reachedEnd with
    | some p, false =>
        some (some ⟨⟨id, (p : Int)⟩, ⟨id, ((p + needle.length : Nat) : Int)⟩⟩)
    | _, _ =>
      if reachedEnd then some none
      else if i + 1 < t.node_ids.length then
        findText_loop fuel t needle endId endOff (t.node_ids.getD (i + 1) 0) 0
      else some none

/-- Embeds `AnyElementTextRangeProvider::FindText`: backward and
case-insensitive searches return E_NOTIMPL; otherwise scan forward from the
start point, returning the sub-range bounding the first accepted match, or a
null slot when none is accepted. -/
def FindText (t : UiTree) (r : TRange) (needle : List Nat)
    (backward ignoreCase : Bool) : Option (HR × Option TRange) :=
  if backward then some (HR.E_NOTIMPL, none)
  else if ignoreCase then some (HR.E_NOTIMPL, none)
  else
    (findText_loop (t.node_ids.length + 1) t needle r.stop.id r.stop.offset
        r.start.id r.start.offset).map
      (fun res => (HR.S_OK, res))

/-- The normalization loop of `Move` (step 2): walk parent links upward while
the current node is not of the required type; reaching the synthetic root
makes the next `ui_get_index(0)` lookup abort, exactly as in the source. -/
def walk_up : Nat → UiTree → UiType → Nat → Option Nat
  | 0, _, _, _ => none
  | fuel + 1, t, ty, id => do
    let index ← ui_get_index t id
    if id ≠ 0 ∧ t.node_type.getD index UiType.kNone ≠ ty then
      walk_up fuel t ty (t.node_parent.getD index 0)
    else some id

/-- The stepping loop of `advance_by_type` (step 3): starting at the current
node's index, move the cursor by `iinc` (±1) per iteration, counting a step
and latching the landed-on id whenever a node of the required type is passed,
until the index leaves the store or enough steps were taken. -/
def advance_loop : Nat → UiTree → UiType → Int → Nat → Int → Nat → Nat →
    Option (Nat × Nat)
  | 0, _, _, _, _, _, _, _ => none
  | fuel + 1, t, ty, iinc, num, i, steps, id =>
    if 0 ≤ i ∧ i < (t.node_ids.length : Int) ∧ steps < num then
      let hit := t.node_type.getD i.toNat UiType.kNone = ty
      advance_loop fuel t ty iinc num (i + iinc)
        (if hit then steps + 1 else steps)
        (if hit then t.node_ids.getD i.toNat 0 else id)
    else some (id, steps)

/-- Embeds the `advance_by_type` lambda inside `Move`: VERIFY the starting
node has the required type, split the signed count into magnitude and
direction (`signed_count / num_steps` divides by zero when the count is 0;
that undefined behavior is modeled as an abort), run the stepping loop, and
report the landed-on id with the signed number of steps taken. -/
def advance_by_type (t : UiTree) (id : Nat) (signed_count : Int)
    (ty : UiType) : Option (Nat × Int) := do
  let index ← ui_get_index t id
  if t.node_type.getD index UiType.kNone = ty then
    let num_steps := signed_count.natAbs
    if num_steps = 0 then none
    else
      let iinc : Int := signed_count / (num_steps : Int)
      let res ← advance_loop (t.node_ids.length + 1) t ty iinc num_steps
        (index : Int) 0 id
      some (res.1, iinc * (res.2 : Int))
  else none

/-- The TextUnit values distinguished by the source's switch statements. -/
inductive TextUnit where
  | Character
  | Format
  | Word
  | Line
  | Paragraph
  | Page
  | Document
deriving DecidableEq, Repr

/-- Embeds `AnyElementTextRangeProvider::Move`.  The third component of the
result is what the method wrote into its `*pRetVal` out-parameter: the source
never assigns it, so it is `none` on every path.  A degenerate range returns
immediately; Line/Word/Character/Format units return E_NOTIMPL; Document and
Paragraph normalize upward to the nearest node of the matching type, step by
`advance_by_type`, and set the range to the full span of the landed-on node. -/
def Move (t : UiTree) (r : TRange) (unit : TextUnit) (count : Int) :
    Option (HR × TRange × Option Int) :=
  if r.start = r.stop then some (HR.S_OK, r, none)
  else
    match unit with
    | TextUnit.Line => some (HR.E_NOTIMPL, r, none)
    | TextUnit.Word => some (HR.E_NOTIMPL, r, none)
    | TextUnit.Character => some (HR.E_NOTIMPL, r, none)
    | TextUnit.Format => some (HR.E_NOTIMPL, r, none)
    | u => do
      let thisId := r.start.id
      let thisId ←
        match u with
        | TextUnit.Document =>
            (walk_up (t.node_ids.length + 1) t UiType.kDocument thisId).map
              (fun wid => if wid ≠ 0 then wid else thisId)
        | TextUnit.Paragraph =>
            (walk_up (t.node_ids.length + 1) t UiType.kText thisId).map
              (fun wid => if wid ≠ 0 then wid else thisId)
        | _ => some thisId
      let adv ←
        match u with
        | TextUnit.Document => advance_by_type t thisId count UiType.kDocument
        | TextUnit.Paragraph => advance_by_type t thisId count UiType.kText
        | _ => some (thisId, (0 : Int))
      let ni ← ui_get_index t adv.1
      some (HR.S_OK,
        ⟨⟨adv.1, 0⟩, ⟨adv.1, (t.node_text_len.getD ni 0 : Int)⟩⟩, none)

/-- The collection loop of `AnyElementTextRangeProvider::GetChildren`: walk
from the start id toward the end id in build order; at each node where the
local offset is 0, append the provider obtained from
`create_simple_element_provider(g_ui.focused_id)`.  The source never resets
`offset` while advancing, which is embedded as-is. -/
def getChildren_loop : Nat → UiTree → Nat → Int → Nat → List Nat →
    Option (List Nat)
  | 0, _, _, _, _, _ => none
  | fuel + 1, t, endId, offset, id, acc =>
    match ui_get_index t id with
    | none => none
    | some i =>
      match
        (if offset = 0 then
          match create_simple_element_provider t t.focused_id with
          | none => none
          | some sp => some (acc ++ [sp])
        else some acc) with
      | none => none
      | some acc2 =>
        if id = endId then some acc2
        else if i + 1 ≥ t.node_ids.length then some acc2
        else getChildren_loop fuel t endId offset (t.node_ids.getD (i + 1) 0) acc2

/-- Embeds `AnyElementTextRangeProvider::GetChildren`: the list of element
providers collected over the range. -/
def GetChildren (t : UiTree) (r : TRange) : Option (HR × List Nat) :=
  match getChildren_loop (t.node_ids.length + 1) t r.stop.id
      r.start.offset r.start.id [] with
  | none => none
  | some cs => some (HR.S_OK, cs)

/-- Embeds `ui_get_parent_index`: the index of the parent of the given id. -/
def ui_get_parent_index (t : UiTree) (id : Nat) : Option Nat := do
  let index ← ui_get_index t id
  ui_get_index t (t.node_parent.getD index 0)

/-- Embeds `ui_is_ancestor`: walk parent links of `of_id` upward, reporting
whether `candidate_ancestor_id` appears among them. -/
def ui_is_ancestor : Nat → UiTree → Nat → Nat → Option Bool
  | 0, _, _, _ => none
  | fuel + 1, t, anc, ofId =>
    if ofId = 0 then some false
    else do
      let i ← ui_get_index t ofId
      let p := t.node_parent.getD i 0
      if p = anc then some true
      else ui_is_ancestor fuel t anc p

/-- The first two loops of `GetEnclosingElement`: raise the node at index `i`
(with id `id`) to its ancestors until its depth is no longer below `target`. -/
def raise_to_depth : Nat → UiTree → Nat → Nat → Nat → Option (Nat × Nat)
  | 0, _, _, _, _ => none
  | fuel + 1, t, target, id, i =>
    if t.node_depth.getD i 0 < target then do
      let i' ← ui_get_parent_index t id
      raise_to_depth fuel t target (t.node_ids.getD i' 0) i'
    else some (id, i)

/-- The third loop of `GetEnclosingElement`: raise both ids in lockstep until
they coincide. -/
def raise_both : Nat → UiTree → Nat → Nat → Option Nat
  | 0, _, _, _ => none
  | fuel + 1, t, sid, eid =>
    if sid = eid then some sid
    else do
      let i' ← ui_get_parent_index t sid
      let j' ← ui_get_parent_index t eid
      raise_both fuel t (t.node_ids.getD i' 0) (t.node_ids.getD j' 0)

/-- Embeds `AnyElementTextRangeProvider::GetEnclosingElement`: a single-node
range answers directly, otherwise the endpoints are raised to a common
ancestor, verified by `ui_is_ancestor`, and the result element provider is
built with `create_simple_element_provider`. -/
def GetEnclosingElement (t : UiTree) (r : TRange) : Option (HR × Nat) :=
  if r.start.id = r.stop.id then
    match create_simple_element_provider t r.start.id with
    | none => none
    | some sp => some (HR.S_OK, sp)
  else
    match ui_get_index t r.start.id with
    | none => none
    | some i =>
      match ui_get_index t r.stop.id with
      | none => none
      | some j =>
        match raise_to_depth (t.node_ids.length + 1) t (t.node_depth.getD j 0)
            r.start.id i with
        | none => none
        | some si =>
          match raise_to_depth (t.node_ids.length + 1) t
              (t.node_depth.getD si.2 0) r.stop.id j with
          | none => none
          | some ej =>
            if t.node_depth.getD si.2 0 = t.node_depth.getD ej.2 0 then
              match raise_both (t.node_ids.length + 1) t si.1 ej.1 with
              | none => none
              | some enclosing =>
                match ui_is_ancestor (t.node_ids.length + 1) t enclosing
                    r.start.id with
                | none => none
                | some a1 =>
                  if a1 then
                    match ui_is_ancestor (t.node_ids.length + 1) t enclosing
                        r.stop.id with
                    | none => none
                    | some a2 =>
                      if a2 then
                        match create_simple_element_provider t enclosing with
                        | none => none
                        | some sp => some (HR.S_OK, sp)
                      else none
                  else none
            else none

/-- Embeds `AnyElementTextRangeProvider::AddToSelection`: the source returns
E_UNEXPECTED, unlike its sibling selection operations. -/
def AddToSelection : HR := HR.E_UNEXPECTED

/-- Embeds `AnyElementTextRangeProvider::FindAttribute`: attributes are not
implemented; the parameters do not influence the result. -/
def FindAttribute : HR := HR.E_NOTIMPL

/-- Embeds `AnyElementTextRangeProvider::GetAttributeValue`. -/
def GetAttributeValue : HR := HR.E_NOTIMPL

/-- Embeds `AnyElementTextRangeProvider::RemoveFromSelection`. -/
def RemoveFromSelection : HR := HR.E_NOTIMPL

/-- Embeds `AnyElementTextRangeProvider::ScrollIntoView`: the alignToTop
parameter does not influence the result. -/
def ScrollIntoView : HR := HR.E_NOTIMPL

/-- Embeds `AnyElementTextRangeProvider::Select`. -/
def Select : HR := HR.E_NOTIMPL

/-- Embeds `AnyElementTextRangeProvider::MoveEndpointByRange`. -/
def MoveEndpointByRange : HR := HR.E_NOTIMPL

/-- Embeds `AnyElementTextRangeProvider::MoveEndpointByUnit`. -/
def MoveEndpointByUnit : HR := HR.E_NOTIMPL

/-- The kind of provider object handed back by the fragment root. -/
inductive ProviderRef where
  | root
  | elem (id : Nat)
deriving DecidableEq, Repr

/-- The hit-test scan of `RootProvider::ElementProviderFromPoint`: iterate all
nodes in build order with a running best (id, depth) starting at (0, 0); a
node updates the best when its depth is not below the running best depth and
its rectangle contains the point (half-open on the right and bottom edges). -/
def locate (t : UiTree) (x y : Int) : Nat × Nat :=
  (List.range t.node_rect.length).foldl
    (fun acc i =>
      let d := t.node_depth.getD i 0
      if d < acc.2 then acc
      else
        let r := t.node_rect.getD i rect0
        if y < r.top then acc
        else if y ≥ r.bottom then acc
        else if x < r.left then acc
        else if x ≥ r.right then acc
        else (t.node_ids.getD i 0, d))
    (0, 0)

/-- Embeds `RootProvider::ElementProviderFromPoint` after the screen-to-client
translation (x and y are client coordinates): run the hit-test scan, then hand
back an element provider built from `g_ui.focused_id` when a node was hit, and
the root provider itself otherwise. -/
def ElementProviderFromPoint (t : UiTree) (x y : Int) :
    Option (HR × ProviderRef) :=
  let hit := locate t x y
  if hit.1 ≠ 0 then
    match create_element_provider t t.focused_id with
    | none => none
    | some p => some (HR.S_OK, ProviderRef.elem p)
  else some (HR.S_OK, ProviderRef.root)

/-! Derived artifacts used by the claim statements. -/

/-- The tree produced by the `ui_describe` pass (clients not listening). -/
def scenario_tree : Option UiTree := (ui_describe false).map (fun p => p.1)

/-- The Document's full range, as produced by `get_DocumentRange` on the
Document node (build index 1) of the scenario tree. -/
def scenario_document_range : Option TRange := do
  let t ← scenario_tree
  let dr ← get_DocumentRange t (t.node_ids.getD 1 0)
  dr.2

/-- `FindText("Dreamer")` on the Document's full range of the scenario tree. -/
def scenario_findText : Option (HR × Option TRange) := do
  let t ← scenario_tree
  let r ← scenario_document_range
  FindText t r (codeUnits ("Dreamer")) false false

/-- `Move(TextUnit_Document, 1)` on the Document's full range of the scenario
tree. -/
def scenario_move : Option (HR × TRange × Option Int) := do
  let t ← scenario_tree
  let r ← scenario_document_range
  Move t r TextUnit.Document 1

/-- A concrete two-node store used as a test input: node id 5 has a rectangle
covering (0,0)-(10,10), node id 7 has an empty rectangle, and focus is on 7. -/
def hitTree : UiTree :=
  { node_ids := [5, 7],
    node_names := [codeUnits ("A"), codeUnits ("B")],
    node_type := [UiType.kText, UiType.kText],
    node_parent := [0, 0],
    node_depth := [0, 0],
    node_text_len := [1, 1],
    node_rect := [⟨0, 0, 10, 10⟩, ⟨0, 0, 0, 0⟩],
    actions := [],
    focused_id := 7,
    depth_for_adding_element := 0 }

/-- A concrete one-node store whose single element is focused; its unique node
is simultaneously the first and the last element in build order. -/
def soloTree : UiTree :=
  { node_ids := [5],
    node_names := [codeUnits ("A")],
    node_type := [UiType.kText],
    node_parent := [0],
    node_depth := [0],
    node_text_len := [1],
    node_rect := [rect0],
    actions := [],
    focused_id := 5,
    depth_for_adding_element := 0 }

/-- A concrete one-node store primed for an insertion at depth 1: its existing
node sits at depth 0 and will be resolved as the parent. -/
def depthTree : UiTree :=
  { node_ids := [5],
    node_names := [codeUnits ("A")],
    node_type := [UiType.kPane],
    node_parent := [0],
    node_depth := [0],
    node_text_len := [1],
    node_rect := [rect0],
    actions := [],
    focused_id := 0,
    depth_for_adding_element := 1 }

/-- The default pair used to read back a successful insertion result. -/
def pairD : Nat × UiTree := (0, uiEmpty)

/-- The sum of the stored text lengths over the direct children of the node at
build index `i`. -/
def childSum (t : UiTree) (i : Nat) : Nat :=
  ∑ j ∈ Finset.range t.node_ids.length,
    if t.node_parent.getD j 0 = t.node_ids.getD i 0 then
      t.node_text_len.getD j 0
    else 0

/-- The text-aggregation invariant of the spec: every node's stored text
length is its own name length plus the sum over its direct children. -/
def TextAgg (t : UiTree) : Prop :=
  ∀ i < t.node_ids.length,
    t.node_text_len.getD i 0 = (t.node_names.getD i []).length + childSum t i

/-- Structural well-formedness of the node store, maintained by the tree
builder: ids are distinct and valid, every parent link goes to an earlier node
or to the synthetic root, and the columns have equal lengths. -/
structure Wf (t : UiTree) : Prop where
  nodup : t.node_ids.Nodup
  valid : ∀ i < t.node_ids.length, valid_id (t.node_ids.getD i 0) = true
  parent_earlier : ∀ j < t.node_ids.length,
    t.node_parent.getD j 0 = 0 ∨
      ∃ k < j, t.node_ids.getD k 0 = t.node_parent.getD j 0
  len_names : t.node_names.length = t.node_ids.length
  len_parent : t.node_parent.length = t.node_ids.length
  len_depth : t.node_depth.length = t.node_ids.length
  len_text : t.node_text_len.length = t.node_ids.length

/-- The states reachable by the tree builder: the empty store, extended by
`ui_named_element` insertions, with the scope counter and the action table
adjusted freely between insertions (covering the increments and decrements of
`depth_for_adding_element` and `ui_button`'s action registration). -/
inductive Built : UiTree → Prop where
  | init : Built uiEmpty
  | insert {t : UiTree} {name : List Nat} {ty : UiType} {r : Nat × UiTree} :
      Built t → ui_named_element t name ty = some r → Built r.2
  | setDepth {t : UiTree} (d : Nat) :
      Built t → Built { t with depth_for_adding_element := d }
  | setActions {t : UiTree} (a : List Nat) :
      Built t → Built { t with actions := a }

/-- The list of store indices visited by the ancestor walk of
`bump_ancestors`, in visiting order. -/
def chain_idx : Nat → UiTree → Nat → Option (List Nat)
  | 0, _, _ => none
  | fuel + 1, t, pid =>
    if pid = 0 then some []
    else
      match ui_get_index t pid with
      | none => none
      | some i =>
        match chain_idx fuel t (t.node_parent.getD i 0) with
        | none => none
        | some rest => some (i :: rest)

/-- Adding `len` into a text-length column at each index of `ch` in order. -/
def bumpAll (ch : List Nat) (tl : List Nat) (len : Nat) : List Nat :=
  ch.foldl (fun acc i => acc.set i (acc.getD i 0 + len)) tl

/-- The store after `ui_named_element` has pushed one entry per column, before
the text-length accumulation; an alias for the record update appearing inside
`ui_named_element`, used to state its characterization. -/
def pushedTree (t : UiTree) (name : List Nat) (ty : UiType) (p : Nat) : UiTree :=
  { t with
    node_ids := t.node_ids ++ [make_id name p],
    node_names := t.node_names ++ [name],
    node_type := t.node_type ++ [ty],
    node_depth := t.node_depth ++ [t.depth_for_adding_element],
    node_parent := t.node_parent ++ [p],
    node_rect := t.node_rect ++ [rect0],
    node_text_len := t.node_text_len ++ [0] }

/-- The evaluated value of the scenario tree, written out as a literal so that
later computations run on fully evaluated lists; `scenario_tree_eq` proves it
equal to the pipeline's result. -/
def scenarioTreeV : UiTree :=
  { node_ids := [8502551868620647027, 13355125710927412426, 1172172504109625425,
      16723287452850656607, 8994872349789598745, 11715807225671123619,
      13262395489452514687],
    node_names := [codeUnits ("Main"), codeUnits ("Main"),
      codeUnits ("This is the first paragraph."),
      codeUnits ("Hello, Dreamer of dreams."),
      codeUnits ("Yet another paragraph"),
      codeUnits ("Minimize Application"),
      codeUnits ("Close Application")],
    node_type := [UiType.kPane, UiType.kDocument, UiType.kText, UiType.kText,
      UiType.kText, UiType.kButton, UiType.kButton],
    node_parent := [0, 8502551868620647027, 13355125710927412426,
      13355125710927412426, 13355125710927412426, 8502551868620647027,
      8502551868620647027],
    node_depth := [0, 1, 2, 2, 2, 1, 1],
    node_text_len := [119, 78, 28, 25, 21, 20, 17],
    node_rect := [rect0, rect0, rect0, rect0, rect0, rect0, rect0],
    actions := [11715807225671123619, 13262395489452514687],
    focused_id := 1172172504109625425,
    depth_for_adding_element := 0 }

/-- The store after inserting Pane "Main" into the empty store, written as a
literal; used by the text-aggregation witness. -/
def demoTreeV : UiTree :=
  { node_ids := [8502551868620647027],
    node_names := [codeUnits ("Main")],
    node_type := [UiType.kPane],
    node_parent := [0],
    node_depth := [0],
    node_text_len := [4],
    node_rect := [rect0],
    actions := [],
    focused_id := 0,
    depth_for_adding_element := 0 }

/-!
Theorems.  Each claim of the specification review is settled by exactly one
theorem named after it; auxiliary lemmas carry separate names.
-/

set_option maxRecDepth 40000 in
/-- The `ui_describe` pipeline evaluates to the literal tree `scenarioTreeV`. -/
lemma scenario_tree_eq : scenario_tree = some scenarioTreeV := by decide

set_option maxRecDepth 40000 in
/-- Claim C1.  On the tree built by `ui_describe`, the Document's full range
runs from offset 0 to its aggregate text length 78 on the Document id, and the
name of the node inside that range (the second paragraph, build index 3) does
contain "Dreamer" (at offset 7); yet `FindText("Dreamer")` on that range
returns S_OK with a null range — no match — because the scan latches
`reached_end` already at the Document node itself, whose own name does not
contain the needle, instead of continuing to the paragraphs inside the range.
This refutes the spec's scenario, which requires a non-null range whose text
is "Dreamer". -/
theorem claim_C1_findText_dreamer_scenario :
    scenario_document_range =
      scenario_tree.map
        (fun t => ⟨⟨t.node_ids.getD 1 0, 0⟩, ⟨t.node_ids.getD 1 0, 78⟩⟩)
    ∧ (scenario_tree.map
        (fun t => wfind (t.node_names.getD 3 []) (codeUnits ("Dreamer")) 0))
      = some (some 7)
    ∧ scenario_findText = some (HR.S_OK, none) := by
  unfold scenario_findText scenario_document_range
  rw [scenario_tree_eq]
  decide

set_option maxRecDepth 40000 in
/-- Claim C2.  On the Document's full range of the scenario tree,
`Move(TextUnit_Document, 1)` completes one unit step (the engine's own
`advance_by_type` reports a step count of 1) and succeeds, but the value the
method writes into its out-parameter (third component) is `none`: the source
never assigns `*pRetVal`, so the number of completed steps is not reported to
the caller. -/
theorem claim_C2_move_does_not_report_steps :
    (scenario_move.map (fun out => out.2.2)) = some none
    ∧ (do
        let t ← scenario_tree
        advance_by_type t (t.node_ids.getD 1 0) 1 UiType.kDocument)
      = scenario_tree.map (fun t => (t.node_ids.getD 1 0, (1 : Int)))
    ∧ scenario_move =
        scenario_document_range.map (fun r => (HR.S_OK, r, (none : Option Int))) := by
  unfold scenario_move scenario_document_range
  rw [scenario_tree_eq]
  decide

/-- Claim C4, counterexample.  `AddToSelection` — a selection-mutation
operation — returns E_UNEXPECTED, not the E_NOTIMPL signal the claim requires
of every unimplemented operation; and `Move` with an unimplemented unit
(Character) on a degenerate range returns S_OK without moving, rather than a
"not implemented" signal. -/
theorem claim_C4_counterexample :
    AddToSelection = HR.E_UNEXPECTED
    ∧ AddToSelection ≠ HR.E_NOTIMPL
    ∧ Move uiEmpty ⟨⟨1, 0⟩, ⟨1, 0⟩⟩ TextUnit.Character 1 =
        some (HR.S_OK, ⟨⟨1, 0⟩, ⟨1, 0⟩⟩, none)
    ∧ HR.S_OK ≠ HR.E_NOTIMPL :=
  ⟨rfl, by decide, rfl, by decide⟩

/-- Claim C4, amended.  Backward and case-insensitive `FindText`, the
Word/Line/Character/Format units of `Move` on a non-degenerate range,
attribute lookup (`FindAttribute`, `GetAttributeValue`), selection mutation
via `RemoveFromSelection` and `Select`, and `ScrollIntoView` all return
E_NOTIMPL; `AddToSelection` alone returns the distinct error E_UNEXPECTED, and
`Move` on a degenerate range returns S_OK without reaching the unit check. -/
theorem claim_C4_amended_not_implemented_signals :
    (∀ (t : UiTree) (r : TRange) (needle : List Nat) (ic : Bool),
      FindText t r needle true ic = some (HR.E_NOTIMPL, none))
    ∧ (∀ (t : UiTree) (r : TRange) (needle : List Nat),
      FindText t r needle false true = some (HR.E_NOTIMPL, none))
    ∧ (∀ (t : UiTree) (r : TRange) (c : Int), r.start ≠ r.stop →
      Move t r TextUnit.Line c = some (HR.E_NOTIMPL, r, none))
    ∧ (∀ (t : UiTree) (r : TRange) (c : Int), r.start ≠ r.stop →
      Move t r TextUnit.Word c = some (HR.E_NOTIMPL, r, none))
    ∧ (∀ (t : UiTree) (r : TRange) (c : Int), r.start ≠ r.stop →
      Move t r TextUnit.Character c = some (HR.E_NOTIMPL, r, none))
    ∧ (∀ (t : UiTree) (r : TRange) (c : Int), r.start ≠ r.stop →
      Move t r TextUnit.Format c = some (HR.E_NOTIMPL, r, none))
    ∧ FindAttribute = HR.E_NOTIMPL
    ∧ GetAttributeValue = HR.E_NOTIMPL
    ∧ RemoveFromSelection = HR.E_NOTIMPL
    ∧ Select = HR.E_NOTIMPL
    ∧ ScrollIntoView = HR.E_NOTIMPL
    ∧ AddToSelection = HR.E_UNEXPECTED := by
  refine ⟨fun t r needle ic => rfl, fun t r needle => rfl,
    ?_, ?_, ?_, ?_, rfl, rfl, rfl, rfl, rfl, rfl⟩ <;>
    (intro t r c h; unfold Move; rw [if_neg h])

/-- Claim C4, witness for the amended statement: the hypothesized conjuncts
applied at a concrete non-degenerate range. -/
theorem claim_C4_amended_witness :
    Move uiEmpty ⟨⟨1, 0⟩, ⟨2, 0⟩⟩ TextUnit.Line 1 =
      some (HR.E_NOTIMPL, ⟨⟨1, 0⟩, ⟨2, 0⟩⟩, none)
    ∧ FindText uiEmpty ⟨⟨1, 0⟩, ⟨2, 0⟩⟩ (codeUnits ("x")) true false =
      some (HR.E_NOTIMPL, none) :=
  ⟨claim_C4_amended_not_implemented_signals.2.2.1 uiEmpty ⟨⟨1, 0⟩, ⟨2, 0⟩⟩ 1
      (by decide),
    claim_C4_amended_not_implemented_signals.1 uiEmpty ⟨⟨1, 0⟩, ⟨2, 0⟩⟩
      (codeUnits ("x")) false⟩

/-- Claim C5.  On the concrete store `hitTree`, the hit-test scan at point
(1,1) selects node 5 (the only rectangle containing the point), and with no
rectangle containing (100,100) the scan yields the synthetic root; but the
provider handed back to the client for the hit at (1,1) carries id 7 — the
focused element — not the selected element 5, because the source passes
`g_ui.focused_id` instead of the computed id to `create_element_provider`. -/
theorem claim_C5_hit_test_hands_back_focused :
    (locate hitTree 1 1).1 = 5
    ∧ ElementProviderFromPoint hitTree 1 1 = some (HR.S_OK, ProviderRef.elem 7)
    ∧ (5 : Nat) ≠ 7
    ∧ ElementProviderFromPoint hitTree 100 100 = some (HR.S_OK, ProviderRef.root) :=
  ⟨rfl, rfl, by decide, rfl⟩

/-- Claim C8.  When the focused element is the last node in build order,
`ui_focus_next` returns the state unchanged and raises no notification, and
symmetrically `ui_focus_prev` at the first node is a no-op. -/
theorem claim_C8_focus_clamping :
    (∀ (listening : Bool) (t : UiTree),
      ui_get_index t t.focused_id = some (t.node_ids.length - 1) →
      ui_focus_next listening t = some (t, false))
    ∧ (∀ (listening : Bool) (t : UiTree),
      ui_get_index t t.focused_id = some 0 →
      ui_focus_prev listening t = some (t, false)) := by
  constructor
  · intro listening t h
    simp [ui_focus_next, h]
    intro hlt
    omega
  · intro listening t h
    simp [ui_focus_prev, h]

/-- Claim C8, witness: the single node of `soloTree` is both the last and the
first element, and both focus moves are no-ops there. -/
theorem claim_C8_witness :
    ui_focus_next false soloTree = some (soloTree, false)
    ∧ ui_focus_prev true soloTree = some (soloTree, false) :=
  ⟨claim_C8_focus_clamping.1 false soloTree rfl,
    claim_C8_focus_clamping.2 true soloTree rfl⟩

/-- Claim C10.  With no element focused (`focused_id = 0`, the unset default),
both focus-movement operations abort: the id-to-index lookup rejects id 0
(`valid_id 0` is false), modeling the fatal VERIFY. -/
theorem claim_C10_focus_moves_require_focus :
    ∀ (listening : Bool) (t : UiTree), t.focused_id = 0 →
      ui_focus_next listening t = none ∧ ui_focus_prev listening t = none := by
  intro listening t h
  constructor <;> simp [ui_focus_next, ui_focus_prev, ui_get_index, h, valid_id]

/-- Claim C10, witness: the empty store (and any store) with the default
unset focus aborts both focus moves. -/
theorem claim_C10_witness :
    ui_focus_next false uiEmpty = none ∧ ui_focus_prev false uiEmpty = none :=
  claim_C10_focus_moves_require_focus false uiEmpty rfl

/-- Whatever argument `create_simple_element_provider` receives, a successful
result is the focused element's id. -/
lemma csep_some {t : UiTree} {x v : Nat}
    (h : create_simple_element_provider t x = some v) : v = t.focused_id := by
  unfold create_simple_element_provider create_element_provider at h
  split at h
  · exact (Option.some.inj h).symm
  · exact Option.noConfusion h

/-- Every provider collected by the `GetChildren` loop is the focused
element's provider. -/
lemma getChildren_loop_focused :
    ∀ (fuel : Nat) (t : UiTree) (endId : Nat) (off : Int) (id : Nat)
      (acc out : List Nat),
      getChildren_loop fuel t endId off id acc = some out →
      (∀ c ∈ acc, c = t.focused_id) → ∀ c ∈ out, c = t.focused_id := by
  intro fuel
  induction fuel with
  | zero =>
      intro t endId off id acc out h
      exact absurd h (by simp [getChildren_loop])
  | succ n ih =>
      intro t endId off id acc out h hacc
      unfold getChildren_loop at h
      split at h
      · exact Option.noConfusion h
      · rename_i i hoi
        split at h
        · exact Option.noConfusion h
        · rename_i acc2 hacc2
          have hacc2' : ∀ c ∈ acc2, c = t.focused_id := by
            by_cases hoff : off = 0
            · rw [if_pos hoff] at hacc2
              rcases hsp : create_simple_element_provider t t.focused_id with _ | sp <;>
                rw [hsp] at hacc2
              · exact Option.noConfusion hacc2
              · intro c hc
                rw [← Option.some.inj hacc2] at hc
                rcases List.mem_append.mp hc with hc | hc
                · exact hacc c hc
                · rw [List.mem_singleton.mp hc]
                  exact csep_some hsp
            · rw [if_neg hoff] at hacc2
              intro c hc
              rw [← Option.some.inj hacc2] at hc
              exact hacc c hc
          split at h
          · rw [← Option.some.inj h]; exact hacc2'
          · split at h
            · rw [← Option.some.inj h]; exact hacc2'
            · exact ih t endId off _ acc2 out h hacc2'

/-- A successful `GetEnclosingElement` hands back the focused element's
provider. -/
lemma getEnclosingElement_focused {t : UiTree} {r : TRange} {out : HR × Nat}
    (h : GetEnclosingElement t r = some out) : out.2 = t.focused_id := by
  unfold GetEnclosingElement at h
  repeat' split at h
  all_goals
    first
      | exact Option.noConfusion h
      | (rename_i sp hsp
         rw [← Option.some.inj h]
         exact csep_some hsp)

/-- Claim C9.  `create_simple_element_provider` ignores its element-id
argument entirely: any two arguments give the same result, and a successful
result always carries the focused element's id; consequently every element
reference handed back by `GetChildren` and by `GetEnclosingElement` is the
focused element, not a computed contained or enclosing element. -/
theorem claim_C9_simple_provider_ignores_argument :
    (∀ (t : UiTree) (x y : Nat),
      create_simple_element_provider t x = create_simple_element_provider t y)
    ∧ (∀ (t : UiTree) (x v : Nat),
      create_simple_element_provider t x = some v → v = t.focused_id)
    ∧ (∀ (t : UiTree) (r : TRange) (out : HR × List Nat),
      GetChildren t r = some out → ∀ c ∈ out.2, c = t.focused_id)
    ∧ (∀ (t : UiTree) (r : TRange) (out : HR × Nat),
      GetEnclosingElement t r = some out → out.2 = t.focused_id) := by
  refine ⟨fun t x y => rfl, fun t x v h => csep_some h, ?_,
    fun t r out h => getEnclosingElement_focused h⟩
  intro t r out h
  unfold GetChildren at h
  split at h
  · exact Option.noConfusion h
  · rename_i cs hcs
    have := getChildren_loop_focused (t.node_ids.length + 1) t r.stop.id
      r.start.offset r.start.id [] cs hcs (by intro c hc; cases hc)
    rw [← Option.some.inj h]
    exact this

/-- Claim C9, witness: on `hitTree` (focused id 7) the provider argument is
ignored, `GetChildren` over the two-node range yields the focused element
twice, and `GetEnclosingElement` of a one-node range yields the focused
element. -/
theorem claim_C9_witness :
    create_simple_element_provider hitTree 5 = create_simple_element_provider hitTree 42
    ∧ (∀ c ∈ [7, 7], c = hitTree.focused_id)
    ∧ (HR.S_OK, 7).2 = hitTree.focused_id :=
  ⟨claim_C9_simple_provider_ignores_argument.1 hitTree 5 42,
    fun c hc => claim_C9_simple_provider_ignores_argument.2.2.1 hitTree
      ⟨⟨5, 0⟩, ⟨7, 0⟩⟩ (HR.S_OK, [7, 7]) (by decide) c hc,
    claim_C9_simple_provider_ignores_argument.2.2.2 hitTree
      ⟨⟨5, 0⟩, ⟨5, 1⟩⟩ (HR.S_OK, 7) (by decide)⟩

/-- Characterization of a successful `ui_named_element` call: the parent
resolved, the generated id passed both VERIFY checks, the columns were pushed,
and the text lengths were accumulated. -/
lemma ui_named_element_some {t : UiTree} {name : List Nat} {ty : UiType}
    {r : Nat × UiTree} (h : ui_named_element t name ty = some r) :
    ∃ p tl2, resolve_parent t = some p
      ∧ valid_id (make_id name p) = true
      ∧ t.node_ids.contains (make_id name p) = false
      ∧ bump_ancestors (t.node_ids.length + 1) (pushedTree t name ty p)
          ((pushedTree t name ty p).node_text_len.set t.node_ids.length
            ((pushedTree t name ty p).node_names.getD t.node_ids.length []).length)
          ((pushedTree t name ty p).node_parent.getD t.node_ids.length 0)
          ((pushedTree t name ty p).node_names.getD t.node_ids.length []).length
        = some tl2
      ∧ r = (make_id name p, { pushedTree t name ty p with node_text_len := tl2 }) := by
  simp only [ui_named_element] at h
  split at h
  · exact Option.noConfusion h
  · rename_i p hp
    split at h
    · exact Option.noConfusion h
    · rename_i hvalid
      split at h
      · exact Option.noConfusion h
      · rename_i hcont
        split at h
        · exact Option.noConfusion h
        · rename_i tl2 hb
          refine ⟨p, tl2, hp, ?_, ?_, hb, (Option.some.inj h).symm⟩
          · revert hvalid
            cases valid_id (make_id name p) <;> simp
          · revert hcont
            cases t.node_ids.contains (make_id name p) <;> simp

/-- Claim C6.  The generated id depends only on the name and the resolved
parent id: two invocations of `ui_named_element` in arbitrary store states
(the same pass or separate rebuild passes) whose parent resolution yields the
same parent id produce the same element id for the same name. -/
theorem claim_C6_identity_stability :
    ∀ (ta tb : UiTree) (name : List Nat) (tya tyb : UiType) (p : Nat)
      (ra rb : Nat × UiTree),
      resolve_parent ta = some p → resolve_parent tb = some p →
      ui_named_element ta name tya = some ra →
      ui_named_element tb name tyb = some rb →
      ra.1 = rb.1 := by
  intro ta tb name tya tyb p ra rb h1 h2 hu1 hu2
  rcases ui_named_element_some hu1 with ⟨p1, _, hp1, _, _, _, hr1⟩
  rcases ui_named_element_some hu2 with ⟨p2, _, hp2, _, _, _, hr2⟩
  have e1 : p1 = p := Option.some.inj (hp1.symm.trans h1)
  have e2 : p2 = p := Option.some.inj (hp2.symm.trans h2)
  rw [hr1, hr2, e1, e2]

/-- Claim C6, witness: inserting the same name into two different stores (the
empty store and the two-node `hitTree`), both at depth 0 so both resolve the
synthetic root as parent, produces the same id. -/
theorem claim_C6_witness :
    ((ui_named_element uiEmpty (codeUnits ("X")) UiType.kText).getD pairD).1
      = ((ui_named_element hitTree (codeUnits ("X")) UiType.kPane).getD pairD).1 :=
  claim_C6_identity_stability uiEmpty hitTree (codeUnits ("X")) UiType.kText
    UiType.kPane 0 _ _ rfl rfl rfl rfl

/-- A `revFind` miss means no entry of the list matches. -/
lemma revFind_eq_none {l : List Nat} {x : Nat} :
    revFind l x = none ↔ ∀ j < l.length, l.getD j 0 ≠ x := by
  unfold revFind
  rw [List.findIdx?_eq_none_iff]
  constructor
  · intro h j hj hne
    have hmem : l.getD j 0 ∈ l.reverse := by
      rw [List.mem_reverse, List.getD_eq_getElem _ _ hj]
      exact List.getElem_mem hj
    have := h _ hmem
    rw [hne, decide_eq_false_iff_not] at this
    exact this rfl
  · intro h a ha
    rw [decide_eq_false_iff_not]
    intro hax
    rw [List.mem_reverse, List.mem_iff_getElem] at ha
    rcases ha with ⟨j, hj, hje⟩
    exact h j hj (by rw [List.getD_eq_getElem _ _ hj, hje, hax])

/-- A `revFind` hit at reverse-distance `r` identifies the last matching
forward index `l.length - 1 - r`: it matches, and no later index does. -/
lemma revFind_spec {l : List Nat} {x : Nat} {r : Nat} (h : revFind l x = some r) :
    r < l.length ∧ l.getD (l.length - 1 - r) 0 = x ∧
      ∀ m, l.length - 1 - r < m → m < l.length → l.getD m 0 ≠ x := by
  unfold revFind at h
  rw [List.findIdx?_eq_some_iff_getElem] at h
  rcases h with ⟨hr, hp, hmin⟩
  have hr' : r < l.length := by
    have := hr
    rw [List.length_reverse] at this
    exact this
  have hlt : l.length - 1 - r < l.length := by omega
  refine ⟨hr', ?_, ?_⟩
  · rw [List.getD_eq_getElem _ _ hlt]
    have he := List.getElem_reverse hr
    rw [List.length_reverse] at hr
    rw [← he]
    exact of_decide_eq_true hp
  · intro m hm1 hm2 hcon
    have hj : l.length - 1 - m < r := by omega
    have hj2 : l.length - 1 - m < l.reverse.length := by
      rw [List.length_reverse]; omega
    have := hmin (l.length - 1 - m) hj
    have he : l.reverse[l.length - 1 - m] = l[l.length - 1 - (l.length - 1 - m)] :=
      List.getElem_reverse hj2
    have hmm : l.length - 1 - (l.length - 1 - m) = m := by omega
    apply this
    rw [he]
    simp only [hmm]
    rw [decide_eq_true_eq, ← List.getD_eq_getElem _ _ hm2]
    exact hcon

/-- Claim C7.  When `ui_named_element` succeeds at depth `d = 0`, the new
node's parent entry is the synthetic root id 0.  At depth `d > 0` the parent
entry is the id of the most recently added node at depth `d - 1`: some index
`j` holds depth `d - 1`, no later index does, and the new parent entry is the
id at `j`.  When no node at depth `d - 1` exists at `d > 0`, construction
aborts. -/
theorem claim_C7_parent_resolution :
    (∀ (t : UiTree) (name : List Nat) (ty : UiType) (r : Nat × UiTree),
      t.node_depth.length = t.node_ids.length →
      ui_named_element t name ty = some r →
      (t.depth_for_adding_element = 0 → r.2.node_parent = t.node_parent ++ [0])
      ∧ (0 < t.depth_for_adding_element →
        ∃ j < t.node_ids.length,
          t.node_depth.getD j 0 = t.depth_for_adding_element - 1
          ∧ (∀ m, j < m → m < t.node_ids.length →
              t.node_depth.getD m 0 ≠ t.depth_for_adding_element - 1)
          ∧ r.2.node_parent = t.node_parent ++ [t.node_ids.getD j 0]))
    ∧ (∀ (t : UiTree) (name : List Nat) (ty : UiType),
      0 < t.depth_for_adding_element →
      (∀ j < t.node_depth.length,
        t.node_depth.getD j 0 ≠ t.depth_for_adding_element - 1) →
      ui_named_element t name ty = none) := by
  constructor
  · intro t name ty r hlen h
    rcases ui_named_element_some h with ⟨p, tl2, hp, _, _, _, hr⟩
    have hparent : r.2.node_parent = t.node_parent ++ [p] := by rw [hr]; rfl
    constructor
    · intro hd0
      unfold resolve_parent at hp
      rw [if_pos hd0] at hp
      rw [hparent, ← Option.some.inj hp]
    · intro hdpos
      unfold resolve_parent at hp
      rw [if_neg (by omega)] at hp
      rcases hrv : revFind t.node_depth (t.depth_for_adding_element - 1) with _ | ri <;>
        rw [hrv] at hp
      · exact Option.noConfusion hp
      · rcases revFind_spec hrv with ⟨hri, hget, hlast⟩
        rw [hlen] at hri hget hlast
        refine ⟨t.node_ids.length - 1 - ri, by omega, hget, ?_, ?_⟩
        · intro m hm1 hm2
          exact hlast m hm1 hm2
        · rw [hparent, ← Option.some.inj hp]
  · intro t name ty hdpos hnone
    have hrp : resolve_parent t = none := by
      unfold resolve_parent
      rw [if_neg (by omega)]
      rw [revFind_eq_none.mpr hnone]
    unfold ui_named_element
    rw [hrp]

/-- Claim C7, witness: inserting at depth 1 into `depthTree` (one node at
depth 0) resolves index 0 as the parent, and its id 5 becomes the new parent
entry. -/
theorem claim_C7_witness :
    ∃ j < 1, depthTree.node_depth.getD j 0 = depthTree.depth_for_adding_element - 1
      ∧ (∀ m, j < m → m < 1 →
          depthTree.node_depth.getD m 0 ≠ depthTree.depth_for_adding_element - 1)
      ∧ ((ui_named_element depthTree (codeUnits ("X")) UiType.kText).getD
          pairD).2.node_parent
        = depthTree.node_parent ++ [depthTree.node_ids.getD j 0] :=
  (claim_C7_parent_resolution.1 depthTree (codeUnits ("X")) UiType.kText _
    rfl rfl).2 (by decide)

/-- Setting inside bounds updates `getD` at that index. -/
lemma getD_set_self (l : List Nat) (i v : Nat) (h : i < l.length) :
    (l.set i v).getD i 0 = v := by
  rw [List.getD_eq_getElem?_getD, List.getElem?_set, if_pos rfl, if_pos h]
  rfl

/-- Setting one index leaves `getD` at other indices unchanged. -/
lemma getD_set_ne (l : List Nat) (i j v : Nat) (h : i ≠ j) :
    (l.set i v).getD j 0 = l.getD j 0 := by
  rw [List.getD_eq_getElem?_getD, List.getElem?_set, if_neg h,
    ← List.getD_eq_getElem?_getD]

/-- `bumpAll` preserves the column length. -/
lemma bumpAll_length (ch tl : List Nat) (len : Nat) :
    (bumpAll ch tl len).length = tl.length := by
  induction ch generalizing tl with
  | nil => rfl
  | cons a ch ih =>
      unfold bumpAll
      rw [List.foldl_cons]
      have := ih (tl.set a (tl.getD a 0 + len))
      unfold bumpAll at this
      rw [this, List.length_set]

/-- The effect of `bumpAll` on each entry: indices in the (distinct, in-range)
chain gain `len`, others are unchanged. -/
lemma bumpAll_getD (ch : List Nat) (tl : List Nat) (len : Nat)
    (hnd : ch.Nodup) (hlt : ∀ j ∈ ch, j < tl.length) (i : Nat) :
    (bumpAll ch tl len).getD i 0 = tl.getD i 0 + (if i ∈ ch then len else 0) := by
  induction ch generalizing tl with
  | nil => simp [bumpAll]
  | cons a ch ih =>
      rcases List.nodup_cons.mp hnd with ⟨hna, hndc⟩
      unfold bumpAll
      rw [List.foldl_cons]
      have hrec := ih (tl.set a (tl.getD a 0 + len)) hndc
        (by
          intro j hj
          rw [List.length_set]
          exact hlt j (List.mem_cons_of_mem a hj))
      unfold bumpAll at hrec
      rw [hrec]
      by_cases hia : i = a
      · subst hia
        rw [getD_set_self tl i _ (hlt i (List.mem_cons_self i ch))]
        have : i ∉ ch := hna
        simp [this]
      · rw [getD_set_ne tl a i _ (fun hc => hia hc.symm)]
        simp [List.mem_cons, hia]

/-- `bump_ancestors` is `bumpAll` along the visited index chain. -/
lemma bump_eq_chain :
    ∀ (fuel : Nat) (t : UiTree) (tl : List Nat) (pid len : Nat),
      bump_ancestors fuel t tl pid len
        = (chain_idx fuel t pid).map (fun ch => bumpAll ch tl len) := by
  intro fuel
  induction fuel with
  | zero => intro t tl pid len; rfl
  | succ n ih =>
      intro t tl pid len
      unfold bump_ancestors chain_idx
      by_cases hp : pid = 0
      · rw [if_pos hp, if_pos hp]; rfl
      · rw [if_neg hp, if_neg hp]
        rcases hoi : ui_get_index t pid with _ | i
        · rfl
        · dsimp only
          rw [ih]
          rcases hch : chain_idx n t (t.node_parent.getD i 0) with _ | rest
          · rfl
          · rfl

/-- A successful `ui_get_index` identifies an in-range index holding the id. -/
lemma ui_get_index_some_spec {t : UiTree} {pid i : Nat}
    (h : ui_get_index t pid = some i) :
    i < t.node_ids.length ∧ t.node_ids.getD i 0 = pid := by
  unfold ui_get_index at h
  split at h
  · rw [List.findIdx?_eq_some_iff_getElem] at h
    rcases h with ⟨hi, hp, _⟩
    refine ⟨hi, ?_⟩
    rw [List.getD_eq_getElem _ _ hi]
    exact of_decide_eq_true hp
  · exact Option.noConfusion h

/-- Under distinct ids, looking up the id stored at `k` returns `k`. -/
lemma ui_get_index_getD {t : UiTree} (hnd : t.node_ids.Nodup) {k : Nat}
    (hk : k < t.node_ids.length) (hv : valid_id (t.node_ids.getD k 0) = true) :
    ui_get_index t (t.node_ids.getD k 0) = some k := by
  unfold ui_get_index
  rw [if_pos hv, List.findIdx?_eq_some_iff_getElem]
  refine ⟨hk, ?_, ?_⟩
  · rw [decide_eq_true_eq]
    exact (List.getD_eq_getElem _ _ hk).symm
  · intro j hj
    rw [Bool.not_eq_true, decide_eq_false_iff_not]
    intro he
    rw [List.getD_eq_getElem _ _ hk] at he
    have := (hnd.getElem_inj_iff).mp he
    omega

/-- Every index visited by the ancestor chain of `pid` lies strictly below any
bound `b` below which `pid` itself is stored. -/
lemma chain_mem_lt :
    ∀ (fuel : Nat) (t : UiTree), t.node_ids.Nodup →
      (∀ j < t.node_ids.length, t.node_parent.getD j 0 = 0 ∨
        ∃ k < j, t.node_ids.getD k 0 = t.node_parent.getD j 0) →
      ∀ (pid : Nat) (ch : List Nat) (b : Nat), b ≤ t.node_ids.length →
        chain_idx fuel t pid = some ch →
        (pid = 0 ∨ ∃ k < b, t.node_ids.getD k 0 = pid) →
        ∀ j ∈ ch, j < b := by
  intro fuel
  induction fuel with
  | zero => intro t _ _ pid ch b _ hch; exact Option.noConfusion hch
  | succ n ih =>
      intro t hnd hpe pid ch b hb hch hpid
      unfold chain_idx at hch
      split at hch
      · rw [← Option.some.inj hch]
        intro j hj
        exact absurd hj (List.not_mem_nil j)
      · rename_i hp0
        rcases hpid with hpid | ⟨k, hk, hke⟩
        · exact absurd hpid hp0
        · split at hch
          · exact Option.noConfusion hch
          · rename_i i hoi
            split at hch
            · exact Option.noConfusion hch
            · rename_i rest hrest
              rcases ui_get_index_some_spec hoi with ⟨hi, hie⟩
              have hik : i = k := by
                have : t.node_ids[i] = t.node_ids[k] := by
                  rw [← List.getD_eq_getElem t.node_ids 0 hi,
                    ← List.getD_eq_getElem t.node_ids 0 (by omega), hie, hke]
                exact (hnd.getElem_inj_iff).mp this
              rw [← Option.some.inj hch]
              intro j hj
              rcases List.mem_cons.mp hj with hj | hj
              · omega
              · have := ih t hnd hpe (t.node_parent.getD i 0) rest i (by omega)
                  hrest (hpe i hi) j hj
                omega

/-- The visited index chain has no duplicates. -/
lemma chain_nodup :
    ∀ (fuel : Nat) (t : UiTree), t.node_ids.Nodup →
      (∀ j < t.node_ids.length, t.node_parent.getD j 0 = 0 ∨
        ∃ k < j, t.node_ids.getD k 0 = t.node_parent.getD j 0) →
      ∀ (pid : Nat) (ch : List Nat),
        chain_idx fuel t pid = some ch → ch.Nodup := by
  intro fuel
  induction fuel with
  | zero => intro t _ _ pid ch hch; exact Option.noConfusion hch
  | succ n ih =>
      intro t hnd hpe pid ch hch
      unfold chain_idx at hch
      split at hch
      · rw [← Option.some.inj hch]; exact List.nodup_nil
      · split at hch
        · exact Option.noConfusion hch
        · rename_i i hoi
          split at hch
          · exact Option.noConfusion hch
          · rename_i rest hrest
            rcases ui_get_index_some_spec hoi with ⟨hi, _⟩
            rw [← Option.some.inj hch]
            rw [List.nodup_cons]
            refine ⟨?_, ih t hnd hpe _ rest hrest⟩
            intro hmem
            have := chain_mem_lt n t hnd hpe (t.node_parent.getD i 0) rest i
              (by omega) hrest (hpe i hi) i hmem
            omega

/-- The balance identity behind the text aggregation: for each store index
`i`, being the parent-resolution target (`ids[i] = pid`) plus the number of
chain entries whose parent is `ids[i]` equals membership of `i` in the chain.
It expresses that the ancestor walk hits a node exactly when it hits exactly
one of its children first (or starts at it). -/
lemma chain_balance :
    ∀ (fuel : Nat) (t : UiTree), t.node_ids.Nodup →
      (∀ i < t.node_ids.length, valid_id (t.node_ids.getD i 0) = true) →
      (∀ j < t.node_ids.length, t.node_parent.getD j 0 = 0 ∨
        ∃ k < j, t.node_ids.getD k 0 = t.node_parent.getD j 0) →
      ∀ (pid : Nat) (ch : List Nat),
        chain_idx fuel t pid = some ch →
        ∀ i < t.node_ids.length,
          ((if t.node_ids.getD i 0 = pid then 1 else 0)
            + ch.countP (fun j => t.node_parent.getD j 0 = t.node_ids.getD i 0))
          = (if i ∈ ch then 1 else 0) := by
  intro fuel
  induction fuel with
  | zero => intro t _ _ _ pid ch hch; exact Option.noConfusion hch
  | succ n ih =>
      intro t hnd hval hpe pid ch hch i hi
      unfold chain_idx at hch
      split at hch
      · rename_i hp0
        rw [← Option.some.inj hch]
        have hvi := hval i hi
        have : t.node_ids.getD i 0 ≠ pid := by
          intro he
          rw [he, hp0] at hvi
          exact absurd hvi (by decide)
        rw [if_neg this]
        simp
      · rename_i hp0
        split at hch
        · exact Option.noConfusion hch
        · rename_i i0 hoi
          split at hch
          · exact Option.noConfusion hch
          · rename_i rest hrest
            rcases ui_get_index_some_spec hoi with ⟨hi0, hi0e⟩
            rw [← Option.some.inj hch]
            have hirest := ih t hnd hval hpe (t.node_parent.getD i0 0) rest
              hrest i hi
            have hmemlt : ∀ j ∈ rest, j < i0 :=
              chain_mem_lt n t hnd hpe (t.node_parent.getD i0 0) rest i0
                (by omega) hrest (hpe i0 hi0)
            have hii0 : (t.node_ids.getD i 0 = pid) ↔ i = i0 := by
              constructor
              · intro he
                have : t.node_ids[i] = t.node_ids[i0] := by
                  rw [← List.getD_eq_getElem t.node_ids 0 hi,
                    ← List.getD_eq_getElem t.node_ids 0 hi0, he, hi0e]
                exact (hnd.getElem_inj_iff).mp this
              · intro he
                rw [he, hi0e]
            rw [List.countP_cons]
            have hpd : (if t.node_parent.getD i0 0 = t.node_ids.getD i 0 then (1 : Nat) else 0)
                = (if t.node_ids.getD i 0 = t.node_parent.getD i0 0 then 1 else 0) := by
              by_cases he : t.node_parent.getD i0 0 = t.node_ids.getD i 0
              · rw [if_pos he, if_pos he.symm]
              · rw [if_neg he, if_neg (fun hx => he hx.symm)]
            by_cases hcase : i = i0
            · subst hcase
              have h2 : i ∉ rest := fun hmem => absurd (hmemlt i hmem) (by omega)
              have hsum0 : (if t.node_ids.getD i 0 = t.node_parent.getD i 0 then (1 : Nat) else 0)
                  + rest.countP (fun j => t.node_parent.getD j 0 = t.node_ids.getD i 0) = 0 := by
                rw [hirest, if_neg h2]
              rw [if_pos (hii0.mpr rfl), if_pos (List.mem_cons_self i rest)]
              simp only [decide_eq_true_eq]
              omega
            · rw [if_neg (fun he => hcase (hii0.mp he))]
              have hmc : (if i ∈ i0 :: rest then (1 : Nat) else 0)
                  = (if i ∈ rest then 1 else 0) := by
                by_cases hm : i ∈ rest
                · rw [if_pos hm, if_pos (List.mem_cons_of_mem _ hm)]
                · rw [if_neg hm,
                    if_neg (fun hc => (List.mem_cons.mp hc).elim hcase hm)]
              rw [hmc]
              simp only [decide_eq_true_eq]
              omega

/-- A range-sum of an indicator restricted to a duplicate-free in-range chain
is the chain's count. -/
lemma sum_indicator_countP :
    ∀ (ch : List Nat) (n L : Nat) (p : Nat → Bool), ch.Nodup →
      (∀ j ∈ ch, j < n) →
      (∑ j ∈ Finset.range n, if j ∈ ch ∧ p j = true then L else 0)
        = L * ch.countP p := by
  intro ch
  induction ch with
  | nil =>
      intro n L p _ _
      simp
  | cons a ch ih =>
      intro n L p hnd hlt
      rcases List.nodup_cons.mp hnd with ⟨hna, hndc⟩
      have hsplit : ∀ j, (if j ∈ a :: ch ∧ p j = true then L else 0)
          = (if j = a ∧ p j = true then L else 0)
            + (if j ∈ ch ∧ p j = true then L else 0) := by
        intro j
        by_cases hja : j = a
        · subst hja
          by_cases hpa : p j = true
          · simp [hpa, hna]
          · simp [hpa]
        · simp [List.mem_cons, hja]
      rw [Finset.sum_congr rfl (fun j _ => hsplit j), Finset.sum_add_distrib]
      have hfirst : (∑ j ∈ Finset.range n, if j = a ∧ p j = true then L else 0)
          = if p a = true then L else 0 := by
        by_cases hpa : p a = true
        · have : ∀ j, (if j = a ∧ p j = true then L else 0)
              = (if j = a then L else 0) := by
            intro j
            by_cases hja : j = a
            · subst hja; simp [hpa]
            · simp [hja]
          rw [Finset.sum_congr rfl (fun j _ => this j), Finset.sum_ite_eq']
          rw [if_pos (Finset.mem_range.mpr (hlt a (List.mem_cons_self a ch))),
            if_pos hpa]
        · have : ∀ j, (if j = a ∧ p j = true then L else 0) = 0 := by
            intro j
            by_cases hja : j = a
            · subst hja; simp [hpa]
            · simp [hja]
          rw [Finset.sum_congr rfl (fun j _ => this j)]
          simp [hpa]
      rw [hfirst, ih n L p hndc (fun j hj => hlt j (List.mem_cons_of_mem a hj)),
        List.countP_cons]
      by_cases hpa : p a = true
      · simp [hpa, Nat.mul_add]
        omega
      · simp [hpa]

/-- A resolved parent is the root or an id stored below the insertion index. -/
lemma resolve_parent_cases {t : UiTree} {p : Nat}
    (hlen : t.node_depth.length = t.node_ids.length)
    (h : resolve_parent t = some p) :
    p = 0 ∨ ∃ k < t.node_ids.length, t.node_ids.getD k 0 = p := by
  simp only [resolve_parent] at h
  split at h
  · exact Or.inl (Option.some.inj h).symm
  · right
    split at h
    · exact Option.noConfusion h
    · rename_i ri hrv
      rcases revFind_spec hrv with ⟨hri, _, _⟩
      rw [hlen] at hri
      exact ⟨t.node_ids.length - 1 - ri, by omega, Option.some.inj h⟩

/-- An indicator with payload `L` is the 0/1 indicator scaled by `L`. -/
lemma ite_mul_indicator (c : Prop) [Decidable c] (L : Nat) :
    (if c then L else 0) = (if c then 1 else 0) * L := by
  by_cases hc : c <;> simp [hc]

/-- Indicators of symmetric equalities agree. -/
lemma ite_eq_comm (a b : Nat) :
    (if a = b then (1 : Nat) else 0) = (if b = a then 1 else 0) := by
  by_cases he : a = b
  · rw [if_pos he, if_pos he.symm]
  · rw [if_neg he, if_neg (fun hx => he hx.symm)]

/-- One `ui_named_element` insertion preserves well-formedness and the
text-aggregation invariant. -/
lemma insert_preserves {t : UiTree} {name : List Nat} {ty : UiType}
    {r : Nat × UiTree} (hWf : Wf t) (hAgg : TextAgg t)
    (h : ui_named_element t name ty = some r) : Wf r.2 ∧ TextAgg r.2 := by
  rcases ui_named_element_some h with ⟨p, tl2, hp, hvalid, hcont, hb, hr⟩
  have hid0 : 0 < make_id name p := by
    rw [valid_id, Bool.and_eq_true] at hvalid
    exact of_decide_eq_true hvalid.1
  have hvalid' : valid_id (make_id name p) = true := by
    rw [valid_id, Bool.and_eq_true] at hvalid ⊢
    exact hvalid
  have hnm : make_id name p ∉ t.node_ids := by
    intro hmem
    have : t.node_ids.contains (make_id name p) = true := by
      simpa [List.contains] using List.elem_iff.mpr hmem
    rw [hcont] at this
    exact Bool.noConfusion this
  have hpcases := resolve_parent_cases hWf.len_depth hp
  have hgetmem : ∀ k < t.node_ids.length, t.node_ids.getD k 0 ∈ t.node_ids := by
    intro k hk
    rw [List.getD_eq_getElem _ _ hk]
    exact List.getElem_mem hk
  -- the pushed store and the rewritten accumulation equation
  have hLname : (pushedTree t name ty p).node_names.getD t.node_ids.length []
      = name := by
    show (t.node_names ++ [name]).getD t.node_ids.length [] = name
    rw [List.getD_append_right _ _ _ _ (le_of_eq hWf.len_names),
      hWf.len_names, Nat.sub_self]
    rfl
  have hPn : (pushedTree t name ty p).node_parent.getD t.node_ids.length 0
      = p := by
    show (t.node_parent ++ [p]).getD t.node_ids.length 0 = p
    rw [List.getD_append_right _ _ _ _ (le_of_eq hWf.len_parent),
      hWf.len_parent, Nat.sub_self]
    rfl
  rw [hLname, hPn, bump_eq_chain] at hb
  rcases Option.map_eq_some'.mp hb with ⟨ch, hch, htl2⟩
  -- well-formedness pieces of the pushed store
  have hnd1 : (pushedTree t name ty p).node_ids.Nodup := by
    show (t.node_ids ++ [make_id name p]).Nodup
    rw [← List.concat_eq_append]
    exact List.Nodup.concat hnm hWf.nodup
  have e_len1 : (pushedTree t name ty p).node_ids.length
      = t.node_ids.length + 1 := by
    show (t.node_ids ++ [make_id name p]).length = t.node_ids.length + 1
    rw [List.length_append]
    rfl
  have e_ids_lt : ∀ i < t.node_ids.length,
      (pushedTree t name ty p).node_ids.getD i 0 = t.node_ids.getD i 0 := by
    intro i hi
    exact List.getD_append _ _ _ _ hi
  have e_ids_last : (pushedTree t name ty p).node_ids.getD t.node_ids.length 0
      = make_id name p := by
    show (t.node_ids ++ [make_id name p]).getD t.node_ids.length 0 = _
    rw [List.getD_append_right _ _ _ _ (le_refl _), Nat.sub_self]
    exact List.getD_cons_zero
  have e_par_lt : ∀ i < t.node_ids.length,
      (pushedTree t name ty p).node_parent.getD i 0 = t.node_parent.getD i 0 := by
    intro i hi
    show (t.node_parent ++ [p]).getD i 0 = t.node_parent.getD i 0
    exact List.getD_append _ _ _ _ (by rw [hWf.len_parent]; exact hi)
  have e_names_lt : ∀ i < t.node_ids.length,
      (pushedTree t name ty p).node_names.getD i [] = t.node_names.getD i [] := by
    intro i hi
    show (t.node_names ++ [name]).getD i [] = t.node_names.getD i []
    exact List.getD_append _ _ _ _ (by rw [hWf.len_names]; exact hi)
  have hval1 : ∀ i < (pushedTree t name ty p).node_ids.length,
      valid_id ((pushedTree t name ty p).node_ids.getD i 0) = true := by
    intro i hi
    rw [e_len1] at hi
    rcases Nat.lt_succ_iff_lt_or_eq.mp hi with hi | hi
    · rw [e_ids_lt i hi]
      exact hWf.valid i hi
    · subst hi
      rw [e_ids_last]
      exact hvalid'
  have hpe1 : ∀ j < (pushedTree t name ty p).node_ids.length,
      (pushedTree t name ty p).node_parent.getD j 0 = 0 ∨
        ∃ k < j, (pushedTree t name ty p).node_ids.getD k 0
          = (pushedTree t name ty p).node_parent.getD j 0 := by
    intro j hj
    rw [e_len1] at hj
    rcases Nat.lt_succ_iff_lt_or_eq.mp hj with hj | hj
    · rcases hWf.parent_earlier j hj with hz | ⟨k, hk, hke⟩
      · left
        rw [e_par_lt j hj]
        exact hz
      · right
        exact ⟨k, hk, by rw [e_par_lt j hj, e_ids_lt k (by omega), hke]⟩
    · subst hj
      rcases hpcases with hz | ⟨k, hk, hke⟩
      · left
        rw [hPn]
        exact hz
      · right
        exact ⟨k, hk, by rw [hPn, e_ids_lt k hk, hke]⟩
  -- chain facts
  have hpid1 : p = 0 ∨ ∃ k < t.node_ids.length,
      (pushedTree t name ty p).node_ids.getD k 0 = p := by
    rcases hpcases with hz | ⟨k, hk, hke⟩
    · exact Or.inl hz
    · exact Or.inr ⟨k, hk, by rw [e_ids_lt k hk, hke]⟩
  have hchlt : ∀ j ∈ ch, j < t.node_ids.length :=
    chain_mem_lt (t.node_ids.length + 1) (pushedTree t name ty p) hnd1 hpe1
      p ch t.node_ids.length (by rw [e_len1]; omega) hch hpid1
  have hchnd : ch.Nodup :=
    chain_nodup (t.node_ids.length + 1) (pushedTree t name ty p) hnd1 hpe1
      p ch hch
  have hbal := chain_balance (t.node_ids.length + 1) (pushedTree t name ty p)
    hnd1 hval1 hpe1 p ch hch
  -- text-length column values
  have e_tl1_len : ((pushedTree t name ty p).node_text_len.set
      t.node_ids.length name.length).length = t.node_ids.length + 1 := by
    rw [List.length_set]
    show (t.node_text_len ++ [0]).length = _
    rw [List.length_append, hWf.len_text]
    rfl
  have htl2v : ∀ i, tl2.getD i 0
      = ((pushedTree t name ty p).node_text_len.set t.node_ids.length
          name.length).getD i 0
        + (if i ∈ ch then name.length else 0) := by
    intro i
    rw [← htl2]
    exact bumpAll_getD ch _ name.length hchnd
      (by
        intro j hj
        rw [e_tl1_len]
        exact Nat.lt_succ_of_lt (hchlt j hj)) i
  have htl1_last : ((pushedTree t name ty p).node_text_len.set
      t.node_ids.length name.length).getD t.node_ids.length 0 = name.length := by
    apply getD_set_self
    show t.node_ids.length < (t.node_text_len ++ [0]).length
    rw [List.length_append, hWf.len_text, List.length_singleton]
    omega
  have htl1_lt : ∀ i < t.node_ids.length,
      ((pushedTree t name ty p).node_text_len.set t.node_ids.length
        name.length).getD i 0 = t.node_text_len.getD i 0 := by
    intro i hi
    rw [getD_set_ne ((pushedTree t name ty p).node_text_len) t.node_ids.length
      i name.length (by omega)]
    show (t.node_text_len ++ [0]).getD i 0 = t.node_text_len.getD i 0
    exact List.getD_append _ _ _ _ (by rw [hWf.len_text]; exact hi)
  have hnotch : t.node_ids.length ∉ ch := by
    intro hmem
    exact absurd (hchlt _ hmem) (by omega)
  have htl2_last : tl2.getD t.node_ids.length 0 = name.length := by
    rw [htl2v, htl1_last, if_neg hnotch, Nat.add_zero]
  have htl2_lt : ∀ i < t.node_ids.length, tl2.getD i 0
      = t.node_text_len.getD i 0 + (if i ∈ ch then name.length else 0) := by
    intro i hi
    rw [htl2v, htl1_lt i hi]
  have htl2_len : tl2.length = t.node_ids.length + 1 := by
    rw [← htl2, bumpAll_length, e_tl1_len]
  -- the new store
  subst hr
  constructor
  · exact
      { nodup := hnd1
        valid := hval1
        parent_earlier := hpe1
        len_names := by
          show (t.node_names ++ [name]).length
            = (t.node_ids ++ [make_id name p]).length
          rw [List.length_append, List.length_append, hWf.len_names,
            List.length_singleton, List.length_singleton]
        len_parent := by
          show (t.node_parent ++ [p]).length
            = (t.node_ids ++ [make_id name p]).length
          rw [List.length_append, List.length_append, hWf.len_parent,
            List.length_singleton, List.length_singleton]
        len_depth := by
          show (t.node_depth ++ [t.depth_for_adding_element]).length
            = (t.node_ids ++ [make_id name p]).length
          rw [List.length_append, List.length_append, hWf.len_depth,
            List.length_singleton, List.length_singleton]
        len_text := by
          show tl2.length = (t.node_ids ++ [make_id name p]).length
          rw [htl2_len, List.length_append, List.length_singleton] }
  · intro i hi
    rw [show ((make_id name p,
        { pushedTree t name ty p with node_text_len := tl2 }) :
        Nat × UiTree).2.node_ids.length = t.node_ids.length + 1 from e_len1] at hi
    show tl2.getD i 0 = ((pushedTree t name ty p).node_names.getD i []).length
      + childSum { pushedTree t name ty p with node_text_len := tl2 } i
    have hcs : childSum { pushedTree t name ty p with node_text_len := tl2 } i
        = ∑ j ∈ Finset.range (t.node_ids.length + 1),
            if (pushedTree t name ty p).node_parent.getD j 0
                = (pushedTree t name ty p).node_ids.getD i 0 then
              tl2.getD j 0
            else 0 := by
      unfold childSum
      rw [show ({ pushedTree t name ty p with node_text_len := tl2 } :
        UiTree).node_ids.length = t.node_ids.length + 1 from e_len1]
    rcases Nat.lt_succ_iff_lt_or_eq.mp hi with hi | hi
    · -- an old node
      rw [hcs, Finset.sum_range_succ]
      have hterm_n : (if (pushedTree t name ty p).node_parent.getD
            t.node_ids.length 0
            = (pushedTree t name ty p).node_ids.getD i 0 then
          tl2.getD t.node_ids.length 0 else 0)
          = (if p = t.node_ids.getD i 0 then 1 else 0) * name.length := by
        rw [hPn, e_ids_lt i hi, htl2_last, ite_mul_indicator]
      have hterm_lt : ∀ j ∈ Finset.range t.node_ids.length,
          (if (pushedTree t name ty p).node_parent.getD j 0
              = (pushedTree t name ty p).node_ids.getD i 0 then
            tl2.getD j 0 else 0)
          = ((if t.node_parent.getD j 0 = t.node_ids.getD i 0 then
              t.node_text_len.getD j 0 else 0)
            + (if j ∈ ch ∧ (decide (t.node_parent.getD j 0
                = t.node_ids.getD i 0)) = true then name.length else 0)) := by
        intro j hj
        rw [Finset.mem_range] at hj
        rw [e_par_lt j hj, e_ids_lt i hi, htl2_lt j hj]
        by_cases hc : t.node_parent.getD j 0 = t.node_ids.getD i 0
        · rw [if_pos hc, if_pos hc]
          by_cases hm : j ∈ ch
          · rw [if_pos hm, if_pos ⟨hm, by rw [decide_eq_true_eq]; exact hc⟩]
          · rw [if_neg hm, if_neg (fun hx => hm hx.1)]
        · rw [if_neg hc, if_neg hc,
            if_neg (fun hx => hc (of_decide_eq_true hx.2))]
      rw [Finset.sum_congr rfl hterm_lt, Finset.sum_add_distrib,
        sum_indicator_countP ch t.node_ids.length name.length _ hchnd hchlt,
        hterm_n]
      have hagg := hAgg i hi
      rw [htl2_lt i hi, e_names_lt i hi]
      unfold childSum at hagg
      rw [hagg]
      -- remaining arithmetic: indicator balance scaled by the name length
      have hbali := hbal i (by rw [e_len1]; omega)
      rw [e_ids_lt i hi] at hbali
      have hcntc : ch.countP
            (fun j => (pushedTree t name ty p).node_parent.getD j 0
              = t.node_ids.getD i 0)
          = ch.countP
            (fun j => t.node_parent.getD j 0 = t.node_ids.getD i 0) := by
        apply List.countP_congr
        intro j hj
        rw [decide_eq_true_eq, decide_eq_true_eq, e_par_lt j (hchlt j hj)]
      rw [hcntc] at hbali
      rw [ite_mul_indicator _ name.length, ← hbali, Nat.add_mul,
        ite_eq_comm (t.node_ids.getD i 0) p]
      ring
    · -- the new node
      subst hi
      rw [hcs, htl2_last, e_ids_last, hLname]
      have hpltn : ∀ k, k < t.node_ids.length →
          t.node_ids.getD k 0 ≠ make_id name p := by
        intro k hk hx
        exact hnm (hx ▸ hgetmem k hk)
      have hzero : ∀ j ∈ Finset.range (t.node_ids.length + 1),
          (if (pushedTree t name ty p).node_parent.getD j 0
              = make_id name p then tl2.getD j 0 else 0) = 0 := by
        intro j hj
        rw [Finset.mem_range] at hj
        rcases Nat.lt_succ_iff_lt_or_eq.mp hj with hj | hj
        · rw [e_par_lt j hj]
          rcases hWf.parent_earlier j hj with hz | ⟨k, hk, hke⟩
          · rw [hz, if_neg (fun hx => by omega)]
          · have hne : t.node_parent.getD j 0 ≠ make_id name p := by
              intro hx
              exact hpltn k (by omega) (hke.trans hx)
            rw [if_neg hne]
        · subst hj
          rw [hPn]
          rcases hpcases with hz | ⟨k, hk, hke⟩
          · subst hz
            rw [if_neg (fun hx => by omega)]
          · have hne : p ≠ make_id name p := by
              intro hx
              exact hpltn k hk (hke.trans hx)
            rw [if_neg hne]
      rw [Finset.sum_eq_zero hzero, Nat.add_zero]

/-- Every tree-builder-reachable store is well-formed and satisfies the
text-aggregation invariant. -/
lemma built_wf_agg : ∀ (t : UiTree), Built t → Wf t ∧ TextAgg t := by
  intro t hB
  induction hB with
  | init =>
      constructor
      · exact
          { nodup := List.nodup_nil
            valid := by intro i hi; simp [uiEmpty] at hi
            parent_earlier := by intro j hj; simp [uiEmpty] at hj
            len_names := rfl
            len_parent := rfl
            len_depth := rfl
            len_text := rfl }
      · intro i hi
        simp [uiEmpty] at hi
  | insert hb heq ih => exact insert_preserves ih.1 ih.2 heq
  | setDepth d hb ih =>
      refine ⟨?_, ih.2⟩
      exact
        { nodup := ih.1.nodup
          valid := ih.1.valid
          parent_earlier := ih.1.parent_earlier
          len_names := ih.1.len_names
          len_parent := ih.1.len_parent
          len_depth := ih.1.len_depth
          len_text := ih.1.len_text }
  | setActions a hb ih =>
      refine ⟨?_, ih.2⟩
      exact
        { nodup := ih.1.nodup
          valid := ih.1.valid
          parent_earlier := ih.1.parent_earlier
          len_names := ih.1.len_names
          len_parent := ih.1.len_parent
          len_depth := ih.1.len_depth
          len_text := ih.1.len_text }

/-- Claim C3.  After every sequence of tree-builder insertions (from the empty
store, with the scope counter and action table adjusted freely in between),
every node's stored `text_len` equals its own name length plus the sum of
`text_len` over its direct children. -/
theorem claim_C3_text_aggregation : ∀ (t : UiTree), Built t → TextAgg t :=
  fun t hB => (built_wf_agg t hB).2

set_option maxRecDepth 40000 in
/-- The single concrete insertion evaluates to the literal store. -/
lemma demoTree_step : ui_named_element uiEmpty (codeUnits ("Main"))
    UiType.kPane = some (8502551868620647027, demoTreeV) := by decide

/-- Claim C3, witness: the invariant holds after one concrete insertion into
the empty store. -/
theorem claim_C3_witness : TextAgg demoTreeV :=
  claim_C3_text_aggregation _ (Built.insert Built.init demoTree_step)

end SRFirst
